/-
Verification of the IP planner core (`tools/ip_planner.py`).

The planner works over IPv4 networks in CIDR form.  We embed a network as a
record of its base (network) address and prefix length, both natural numbers;
all address arithmetic is carried out in `Nat`, with sizes written as powers
of two.  The Python library guarantees every constructed network has its
host bits zero, so for every reachable value the broadcast address
(`address ||| hostmask` in the library) equals `address + size - 1`, which is
the form used here.

Fallible operations return `Except IPErr`; the constructors of `IPErr`
correspond one-to-one to the distinct `raise` sites of the source, and
`IPErr.isRuntimeError` records which of those are `RuntimeError` (the kind
the allocators catch and retry) as opposed to `ValueError` and
`StopIteration` (which propagate).
-/
import Mathlib

/-- An IPv4 network: base address and prefix length (`ipaddress.IPv4Network`). -/
structure IPv4Network where
  network_address : Nat
  prefixlen : Nat
deriving DecidableEq, Repr

/-- The result value produced by either allocator (dataclass `Plan`). -/
structure Plan where
  vnet : IPv4Network
  webapp_subnet : IPv4Network
  private_endpoint_subnet : IPv4Network
deriving DecidableEq, Repr

deriving instance DecidableEq for Except

/-- The distinct failure exits of the planner, one constructor per `raise`
site.  `rolloverNoCapacityLast` and `rolloverNoCapacity` carry the number of
candidates tried (and, for the former, the last packing error), mirroring the
diagnostic message of the source. -/
inductive IPErr where
  | ipCountNotPositive
  | rangeTooLargeForIPv4
  | invalidPrefixComputed
  | requestedPrefixLargerThanBase
  | noFreeSubnetInBase
  | subnetPrefixOutsideVnet
  | stopIteration
  | unableToAllocateTwoSubnets
  | noVnetSizeFits
  | octetBaseNot16
  | octetBaseOutsidePools
  | octetVnetPrefixTooLarge
  | startThirdOctetOutOfRange
  | octetBaseNotInAllowedPool
  | poolExhausted
  | rolloverNoCapacityLast (tried : Nat) (last : IPErr)
  | rolloverNoCapacity (tried : Nat)
deriving DecidableEq, Repr

/-- Which failures are Python `RuntimeError`s (caught by `build_plan`'s
retry loop), as opposed to `ValueError` / `StopIteration`. -/
def IPErr.isRuntimeError : IPErr → Bool
  | .noFreeSubnetInBase => true
  | .unableToAllocateTwoSubnets => true
  | .noVnetSizeFits => true
  | .poolExhausted => true
  | .rolloverNoCapacityLast _ _ => true
  | .rolloverNoCapacity _ => true
  | _ => false

/-- Number of addresses in the network. -/
def IPv4Network.size (n : IPv4Network) : Nat := 2 ^ (32 - n.prefixlen)

/-- Highest address of the network (`broadcast_address`; for an aligned base
this equals the library's `address ||| hostmask`). -/
def IPv4Network.broadcast_address (n : IPv4Network) : Nat :=
  n.network_address + n.size - 1

/-- Address membership (`addr in network`). -/
def IPv4Network.containsAddr (n : IPv4Network) (addr : Nat) : Bool :=
  decide (n.network_address ≤ addr) && decide (addr ≤ n.broadcast_address)

/-- Library `overlaps`: either endpoint of one network lies in the other. -/
def overlaps (a b : IPv4Network) : Bool :=
  b.containsAddr a.network_address || b.containsAddr a.broadcast_address ||
    a.containsAddr b.network_address || a.containsAddr b.broadcast_address

/-- Library `subnet_of`: `a` is wholly contained in `b`. -/
def IPv4Network.subnet_of (a b : IPv4Network) : Bool :=
  decide (b.network_address ≤ a.network_address) &&
    decide (a.broadcast_address ≤ b.broadcast_address)

/-- Library `subnets(new_prefix=p)`: the sub-networks of prefix length `p`,
in increasing address order.  The library raises when `p` is smaller than the
network's own prefix length; every call site guards that case, so the empty
list stands in for it. -/
def IPv4Network.subnets (n : IPv4Network) (p : Nat) : List IPv4Network :=
  if p < n.prefixlen then []
  else (List.range (2 ^ (p - n.prefixlen))).map
    (fun i => ⟨n.network_address + i * 2 ^ (32 - p), p⟩)

/-- Source `overlaps_any(candidate, used)`: linear scan of `overlaps`. -/
def overlaps_any (candidate : IPv4Network) (used : List IPv4Network) : Bool :=
  used.any (fun u => overlaps candidate u)

/-- Python `int.bit_length` for non-negative integers. -/
def bit_length (m : Nat) : Nat :=
  if m = 0 then 0 else Nat.log 2 m + 1

/-- Source `_next_power_of_two(n)`, that is `1 << (n - 1).bit_length()`, rejecting
non-positive counts. -/
def next_power_of_two (n : Int) : Except IPErr Nat :=
  if n ≤ 0 then .error .ipCountNotPositive
  else .ok (2 ^ bit_length (n.toNat - 1))

/-- Source `prefix_len_for_total_addresses(total_addresses)`. -/
def prefix_len_for_total_addresses (total_addresses : Int) : Except IPErr Nat :=
  match next_power_of_two total_addresses with
  | .error e => .error e
  | .ok total =>
    if total > 2 ^ 32 then .error .rangeTooLargeForIPv4
    else
      let prefix_len : Int := 32 - ((bit_length total : Int) - 1)
      if prefix_len < 0 ∨ prefix_len > 32 then .error .invalidPrefixComputed
      else .ok prefix_len.toNat

/-- Source `subnet_prefix_len_for_usable_ips(usable_ips)`: Azure reserves 5 IPs per
subnet. -/
def subnet_prefix_len_for_usable_ips (usable_ips : Int) : Except IPErr Nat :=
  prefix_len_for_total_addresses (usable_ips + 5)

/-- Source `first_free_subnet(base, prefix_len, used)`. -/
def first_free_subnet (base : IPv4Network) (prefix_len : Nat)
    (used : List IPv4Network) : Except IPErr IPv4Network :=
  if prefix_len < base.prefixlen then .error .requestedPrefixLargerThanBase
  else
    match (base.subnets prefix_len).find? (fun c => !overlaps_any c used) with
    | some c => .ok c
    | none => .error .noFreeSubnetInBase

/-- Source `allocate_two_subnets(vnet, webapp_prefix_len, pe_prefix_len)`. -/
def allocate_two_subnets (vnet : IPv4Network)
    (webapp_prefix_len pe_prefix_len : Nat) :
    Except IPErr (IPv4Network × IPv4Network) :=
  if webapp_prefix_len < vnet.prefixlen || pe_prefix_len < vnet.prefixlen then
    .error .subnetPrefixOutsideVnet
  else
    let first_prefix := min webapp_prefix_len pe_prefix_len
    let second_prefix := max webapp_prefix_len pe_prefix_len
    match vnet.subnets first_prefix with
    | [] => .error .stopIteration
    | first :: _ =>
      match (vnet.subnets second_prefix).find?
          (fun cand => !overlaps_any cand [first]) with
      | some second =>
        if first_prefix = webapp_prefix_len then .ok (first, second)
        else .ok (second, first)
      | none => .error .unableToAllocateTwoSubnets

/-- The descending list `[hi, hi-1, ..., lo]` that Python's
`range(hi, lo - 1, -1)` iterates over (empty when `hi < lo`). -/
def descRange (hi lo : Nat) : List Nat :=
  (List.range (hi + 1 - lo)).map (fun i => hi - i)

/-- The loop body of `build_plan`: walk the descending prefix-length list,
retrying on `RuntimeError` and propagating anything else. -/
def build_plan_go (used : List IPv4Network) (base : IPv4Network) (w p : Nat) :
    List Nat → Except IPErr Plan
  | [] => .error .noVnetSizeFits
  | pl :: rest =>
    match first_free_subnet base pl used with
    | .error e =>
      if e.isRuntimeError then build_plan_go used base w p rest else .error e
    | .ok vnet =>
      match allocate_two_subnets vnet w p with
      | .ok (webapp, pe) => .ok ⟨vnet, webapp, pe⟩
      | .error e =>
        if e.isRuntimeError then build_plan_go used base w p rest else .error e

/-- Source `build_plan(used_prefixes, base, vnet_prefix_len, webapp_prefix_len,
pe_prefix_len)`: bounded-base strategy. -/
def build_plan (used : List IPv4Network) (base : IPv4Network)
    (vnet_prefix_len webapp_prefix_len pe_prefix_len : Nat) : Except IPErr Plan :=
  build_plan_go used base webapp_prefix_len pe_prefix_len
    (descRange vnet_prefix_len base.prefixlen)

/-- Source `_pool_for_octet_search(start_base)`: the recognized pool together with
the allowed second-octet range `[lo, stop)`. -/
def pool_for_octet_search (start_base : IPv4Network) :
    Except IPErr (IPv4Network × Nat × Nat) :=
  if start_base.prefixlen ≠ 16 then .error .octetBaseNot16
  else
    let addr := start_base.network_address
    if (IPv4Network.mk (10 * 2 ^ 24) 8).containsAddr addr then
      .ok (⟨10 * 2 ^ 24, 8⟩, 0, 256)
    else if (IPv4Network.mk (172 * 2 ^ 24 + 16 * 2 ^ 16) 12).containsAddr addr then
      .ok (⟨172 * 2 ^ 24 + 16 * 2 ^ 16, 12⟩, 16, 32)
    else .error .octetBaseOutsidePools

/-- The candidates contributed by one `/24` bucket
`a.second.third.0/24`: the bucket itself at `/24`, its sub-networks at a
more specific requested length. -/
def octet_block (a second third vpl : Nat) : List IPv4Network :=
  let bucket : IPv4Network := ⟨a * 2 ^ 24 + second * 2 ^ 16 + third * 2 ^ 8, 24⟩
  if vpl = 24 then [bucket] else bucket.subnets vpl

/-- The inner (third-octet) loop of the generator, for one second octet:
third octets run from the starting value (for the starting second octet)
or 0 (for later ones) up to 255. -/
def octet_candidates_inner (a ssec second st3n vpl : Nat) : List IPv4Network :=
  let third_start := if second = ssec then st3n else 0
  (List.range (256 - third_start)).flatMap (fun j =>
    octet_block a second (third_start + j) vpl)

/-- The outer (second-octet) loop of the generator: second octets from the
start base's up to the pool's bound. -/
def octet_candidates (a ssec stp st3n vpl : Nat) : List IPv4Network :=
  (List.range (stp - ssec)).flatMap (fun i =>
    octet_candidates_inner a ssec (ssec + i) st3n vpl)

/-- Source `_iter_third_then_second_octet_vnets(start_base, vnet_prefix_len,
start_third_octet)`, with the generator materialized as a list. -/
def iter_third_then_second_octet_vnets (start_base : IPv4Network)
    (vnet_prefix_len : Nat) (start_third_octet : Int) :
    Except IPErr (List IPv4Network) :=
  if vnet_prefix_len < 24 then .error .octetVnetPrefixTooLarge
  else
    match pool_for_octet_search start_base with
    | .error e => .error e
    | .ok (_, secondsLo, secondsStop) =>
      if ¬ (0 ≤ start_third_octet ∧ start_third_octet ≤ 255) then
        .error .startThirdOctetOutOfRange
      else
        let a := start_base.network_address / 2 ^ 24
        let start_second := start_base.network_address / 2 ^ 16 % 256
        if ¬ (secondsLo ≤ start_second ∧ start_second < secondsStop) then
          .error .octetBaseNotInAllowedPool
        else
          .ok (octet_candidates a start_second secondsStop
            start_third_octet.toNat vnet_prefix_len)

/-- The candidate loop of `build_plan_with_rollover`, with the running
candidate count and last packing error made explicit. -/
def rollover_go (used : List IPv4Network) (start_base : IPv4Network)
    (w p : Nat) : List IPv4Network → Nat → Option IPErr → Except IPErr Plan
  | [], tried, lastErr =>
    match pool_for_octet_search start_base with
    | .error e => .error e
    | .ok (pool, _, _) =>
      if used.any (fun u => pool.subnet_of u) then .error .poolExhausted
      else
        match lastErr with
        | some e => .error (.rolloverNoCapacityLast tried e)
        | none => .error (.rolloverNoCapacity tried)
  | vnet :: rest, tried, lastErr =>
    if overlaps_any vnet used then
      rollover_go used start_base w p rest (tried + 1) lastErr
    else
      match allocate_two_subnets vnet w p with
      | .ok (webapp, pe) => .ok ⟨vnet, webapp, pe⟩
      | .error e => rollover_go used start_base w p rest (tried + 1) (some e)

/-- Source `build_plan_with_rollover(used_prefixes, start_base, vnet_prefix_len,
webapp_prefix_len, pe_prefix_len, start_third_octet)`: octet-rollover
strategy. -/
def build_plan_with_rollover (used : List IPv4Network)
    (start_base : IPv4Network) (vnet_prefix_len webapp_prefix_len
    pe_prefix_len : Nat) (start_third_octet : Int) : Except IPErr Plan :=
  match iter_third_then_second_octet_vnets start_base vnet_prefix_len
      start_third_octet with
  | .error e => .error e
  | .ok cands =>
    rollover_go used start_base webapp_prefix_len pe_prefix_len cands 0 none

/-! ### Basic facts about networks -/

lemma IPv4Network.na_le_broadcast (a : IPv4Network) :
    a.network_address ≤ a.broadcast_address := by
  have := Nat.two_pow_pos (32 - a.prefixlen)
  unfold IPv4Network.broadcast_address IPv4Network.size
  omega

lemma overlaps_eq_true_iff (a b : IPv4Network) :
    overlaps a b = true ↔
      b.network_address ≤ a.broadcast_address ∧
        a.network_address ≤ b.broadcast_address := by
  have ha := a.na_le_broadcast
  have hb := b.na_le_broadcast
  simp only [overlaps, IPv4Network.containsAddr, Bool.or_eq_true,
    Bool.and_eq_true, decide_eq_true_eq]
  omega

lemma overlaps_comm (a b : IPv4Network) : overlaps a b = overlaps b a := by
  rw [Bool.eq_iff_iff, overlaps_eq_true_iff, overlaps_eq_true_iff]
  tauto

/-! ### Prefix-length arithmetic -/

lemma bit_length_le {m k : Nat} : bit_length m ≤ k ↔ m < 2 ^ k := by
  rcases eq_or_ne m 0 with rfl | hm
  · simp [bit_length, Nat.two_pow_pos]
  · rw [bit_length, if_neg hm, Nat.add_one_le_iff,
      ← Nat.lt_pow_iff_log_lt (by norm_num) hm]

lemma lt_two_pow_bit_length (m : Nat) : m < 2 ^ bit_length m :=
  bit_length_le.mp le_rfl

lemma bit_length_two_pow (e : Nat) : bit_length (2 ^ e) = e + 1 := by
  rw [bit_length, if_neg (Nat.pos_of_ne_zero ?_).ne', Nat.log_pow (by norm_num)]
  · exact (Nat.two_pow_pos e).ne'

lemma bit_length_mono {m n : Nat} (h : m ≤ n) : bit_length m ≤ bit_length n := by
  rcases eq_or_ne m 0 with rfl | hm
  · simp [bit_length]
  · rw [bit_length, if_neg hm, bit_length, if_neg (by omega)]
    exact Nat.add_le_add_right (Nat.log_mono_right h) 1

lemma prefix_len_eval (n : Int) (h0 : 0 < n) (h32 : n ≤ 2 ^ 32) :
    prefix_len_for_total_addresses n = .ok (32 - bit_length (n.toNat - 1)) := by
  have he : bit_length (n.toNat - 1) ≤ 32 := by
    apply bit_length_le.mpr
    have : n.toNat ≤ 2 ^ 32 := by omega
    have := Nat.two_pow_pos 32
    omega
  rw [prefix_len_for_total_addresses, next_power_of_two, if_neg (by omega)]
  simp only
  rw [if_neg (by
    simp only [not_lt]
    exact Nat.pow_le_pow_right (by norm_num) he)]
  rw [bit_length_two_pow]
  rw [if_neg (by omega)]
  congr 1
  omega

lemma prefix_len_ok_inv {n : Int} {pl : Nat}
    (h : prefix_len_for_total_addresses n = .ok pl) :
    0 < n ∧ n ≤ 2 ^ 32 ∧ pl = 32 - bit_length (n.toNat - 1) ∧
      bit_length (n.toNat - 1) ≤ 32 := by
  by_cases h0 : n ≤ 0
  · rw [prefix_len_for_total_addresses, next_power_of_two, if_pos h0] at h
    simp at h
  push_neg at h0
  by_cases h32 : n ≤ 2 ^ 32
  · have heval := prefix_len_eval n h0 h32
    rw [heval] at h
    have he : bit_length (n.toNat - 1) ≤ 32 := by
      apply bit_length_le.mpr
      have h1 : n.toNat ≤ 2 ^ 32 := by omega
      have := Nat.two_pow_pos 32
      omega
    injection h with h
    exact ⟨h0, h32, h.symm, he⟩
  · exfalso
    push_neg at h32
    have hbig : ¬ bit_length (n.toNat - 1) ≤ 32 := by
      rw [bit_length_le]
      omega
    rw [prefix_len_for_total_addresses, next_power_of_two,
      if_neg (by omega)] at h
    simp only at h
    rw [if_pos (by
      have h33 : 33 ≤ bit_length (n.toNat - 1) := by omega
      calc (2 : Nat) ^ 32 < 2 ^ 33 := by norm_num
        _ ≤ 2 ^ bit_length (n.toNat - 1) :=
          Nat.pow_le_pow_right (by norm_num) h33)] at h
    simp at h

/-- C6: for every positive `totalAddresses` not exceeding the IPv4 space,
`prefix_len_for_total_addresses` returns the prefix length whose address
count is the least power of two that is at least `totalAddresses`; it fails
with the invalid-size errors on non-positive input or when the rounded size
exceeds `2^32`. -/
theorem prefix_len_for_total_addresses_spec (n : Int) :
    (n ≤ 0 → prefix_len_for_total_addresses n = .error .ipCountNotPositive) ∧
    (0 < n → n ≤ 2 ^ 32 →
      ∃ pl, prefix_len_for_total_addresses n = .ok pl ∧ pl ≤ 32 ∧
        n ≤ ((2 ^ (32 - pl) : Nat) : Int) ∧
        ∀ k : Nat, n ≤ ((2 ^ k : Nat) : Int) → (2 ^ (32 - pl) : Nat) ≤ 2 ^ k) ∧
    (2 ^ 32 < n → prefix_len_for_total_addresses n = .error .rangeTooLargeForIPv4) := by
  refine ⟨?_, ?_, ?_⟩
  · intro h0
    rw [prefix_len_for_total_addresses, next_power_of_two, if_pos h0]
  · intro h0 h32
    have he : bit_length (n.toNat - 1) ≤ 32 := by
      apply bit_length_le.mpr
      have h1 : n.toNat ≤ 2 ^ 32 := by omega
      have := Nat.two_pow_pos 32
      omega
    have hsub : 32 - (32 - bit_length (n.toNat - 1)) = bit_length (n.toNat - 1) := by
      omega
    refine ⟨32 - bit_length (n.toNat - 1), prefix_len_eval n h0 h32, by omega, ?_, ?_⟩
    · rw [hsub]
      have h1 := lt_two_pow_bit_length (n.toNat - 1)
      omega
    · intro k hk
      rw [hsub]
      refine Nat.pow_le_pow_right (by norm_num) (bit_length_le.mpr ?_)
      omega
  · intro h32
    have hbig : ¬ bit_length (n.toNat - 1) ≤ 32 := by
      rw [bit_length_le]
      omega
    rw [prefix_len_for_total_addresses, next_power_of_two, if_neg (by omega)]
    simp only
    rw [if_pos (by
      have h33 : 33 ≤ bit_length (n.toNat - 1) := by omega
      calc (2 : Nat) ^ 32 < 2 ^ 33 := by norm_num
        _ ≤ 2 ^ bit_length (n.toNat - 1) :=
          Nat.pow_le_pow_right (by norm_num) h33)]

/-- Witness for C6 at `totalAddresses = 5`: result `/29`, size 8. -/
theorem prefix_len_for_total_addresses_spec_witness :
    prefix_len_for_total_addresses 5 = .ok 29 ∧
      (5 : Int) ≤ ((2 ^ (32 - 29) : Nat) : Int) ∧
      (2 ^ (32 - 29) : Nat) ≤ 2 ^ 3 := by
  have hlog : Nat.log 2 4 = 2 :=
    Nat.log_eq_of_pow_le_of_lt_pow (by norm_num) (by norm_num)
  have h5 : prefix_len_for_total_addresses 5 = .ok 29 := by
    rw [prefix_len_eval 5 (by norm_num) (by norm_num)]
    norm_num [bit_length, show (5 : Int).toNat - 1 = 4 from rfl, hlog]
  obtain ⟨-, hmid, -⟩ := prefix_len_for_total_addresses_spec 5
  obtain ⟨pl, hok, -, hlb, hmin⟩ := hmid (by norm_num) (by norm_num)
  rw [h5] at hok
  injection hok with hok
  subst hok
  exact ⟨h5, hlb, hmin 3 (by norm_num)⟩

/-- C7: the range size implied by the returned prefix length is monotone
non-decreasing in the request, is a power of two, and is at least the
request. -/
theorem prefix_len_monotone (m n : Int) (plm pln : Nat)
    (hm : prefix_len_for_total_addresses m = .ok plm)
    (hn : prefix_len_for_total_addresses n = .ok pln)
    (hmn : m ≤ n) :
    (2 ^ (32 - plm) : Nat) ≤ 2 ^ (32 - pln) ∧
      (∃ k, (2 ^ (32 - plm) : Nat) = 2 ^ k) ∧
      m ≤ ((2 ^ (32 - plm) : Nat) : Int) := by
  obtain ⟨hm0, hm32, hple, hbem⟩ := prefix_len_ok_inv hm
  obtain ⟨hn0, hn32, hqle, hben⟩ := prefix_len_ok_inv hn
  have hmono : bit_length (m.toNat - 1) ≤ bit_length (n.toNat - 1) :=
    bit_length_mono (by omega)
  have hem : 32 - plm = bit_length (m.toNat - 1) := by omega
  have hen : 32 - pln = bit_length (n.toNat - 1) := by omega
  refine ⟨?_, ⟨32 - plm, rfl⟩, ?_⟩
  · rw [hem, hen]
    exact Nat.pow_le_pow_right (by norm_num) hmono
  · rw [hem]
    have h1 := lt_two_pow_bit_length (m.toNat - 1)
    omega

/-- Witness for C7 at `m = 5`, `n = 9` (prefix lengths 29 and 28). -/
theorem prefix_len_monotone_witness :
    (2 ^ (32 - 29) : Nat) ≤ 2 ^ (32 - 28) ∧
      (∃ k, (2 ^ (32 - 29) : Nat) = 2 ^ k) ∧
      (5 : Int) ≤ ((2 ^ (32 - 29) : Nat) : Int) := by
  have hlog : Nat.log 2 4 = 2 :=
    Nat.log_eq_of_pow_le_of_lt_pow (by norm_num) (by norm_num)
  have h5 : prefix_len_for_total_addresses 5 = .ok 29 := by
    rw [prefix_len_eval 5 (by norm_num) (by norm_num)]
    norm_num [bit_length, show (5 : Int).toNat - 1 = 4 from rfl, hlog]
  have h9 : prefix_len_for_total_addresses 9 = .ok 28 := by
    rw [prefix_len_eval 9 (by norm_num) (by norm_num)]
    rw [show (9 : Int).toNat - 1 = 2 ^ 3 from rfl, bit_length_two_pow]
  exact prefix_len_monotone 5 9 29 28 h5 h9 (by norm_num)

/-- C8: `subnet_prefix_len_for_usable_ips` adds exactly 5 reserved addresses
and delegates to `prefix_len_for_total_addresses`; at 27 usable hosts it
returns prefix length 27. -/
theorem subnet_prefix_len_spec :
    (∀ n : Int, subnet_prefix_len_for_usable_ips n =
      prefix_len_for_total_addresses (n + 5)) ∧
    subnet_prefix_len_for_usable_ips 27 = .ok 27 := by
  refine ⟨fun n => rfl, ?_⟩
  show prefix_len_for_total_addresses 32 = .ok 27
  rw [prefix_len_eval 32 (by norm_num) (by norm_num)]
  have hlog : Nat.log 2 31 = 4 :=
    Nat.log_eq_of_pow_le_of_lt_pow (by norm_num) (by norm_num)
  norm_num [bit_length, show (32 : Int).toNat - 1 = 31 from rfl, hlog]

/-! ### Sub-network enumeration -/

lemma mem_subnets {n : IPv4Network} {p : Nat} (hp : n.prefixlen ≤ p)
    {x : IPv4Network} :
    x ∈ n.subnets p ↔ ∃ i < 2 ^ (p - n.prefixlen),
      x = ⟨n.network_address + i * 2 ^ (32 - p), p⟩ := by
  rw [IPv4Network.subnets, if_neg (by omega), List.mem_map]
  constructor
  · rintro ⟨i, hi, rfl⟩
    exact ⟨i, List.mem_range.mp hi, rfl⟩
  · rintro ⟨i, hi, rfl⟩
    exact ⟨i, List.mem_range.mpr hi, rfl⟩

lemma subnets_head? {n : IPv4Network} {p : Nat} (hp : n.prefixlen ≤ p) :
    (n.subnets p).head? = some ⟨n.network_address, p⟩ := by
  rw [IPv4Network.subnets, if_neg (by omega)]
  obtain ⟨k, hk⟩ : ∃ k, 2 ^ (p - n.prefixlen) = k + 1 :=
    ⟨2 ^ (p - n.prefixlen) - 1, by have := Nat.two_pow_pos (p - n.prefixlen); omega⟩
  rw [hk, List.range_succ_eq_map]
  simp

lemma subnets_sorted (n : IPv4Network) (p : Nat) :
    List.Pairwise (fun x y => x.network_address < y.network_address)
      (n.subnets p) := by
  rw [IPv4Network.subnets]
  split
  · exact List.Pairwise.nil
  · rw [List.pairwise_map]
    refine (List.pairwise_lt_range _).imp ?_
    intro a b hab
    have hpos := Nat.two_pow_pos (32 - p)
    have := (Nat.mul_lt_mul_right hpos).mpr hab
    simpa using by omega

lemma subnet_of_of_mem_subnets {n x : IPv4Network} {p : Nat}
    (hp1 : n.prefixlen ≤ p) (hp2 : p ≤ 32) (hx : x ∈ n.subnets p) :
    x.subnet_of n = true := by
  obtain ⟨i, hi, rfl⟩ := (mem_subnets hp1).mp hx
  simp only [IPv4Network.subnet_of, IPv4Network.broadcast_address,
    IPv4Network.size, Bool.and_eq_true, decide_eq_true_eq]
  have hpow : 2 ^ (p - n.prefixlen) * 2 ^ (32 - p) = 2 ^ (32 - n.prefixlen) := by
    rw [← pow_add]
    congr 1
    omega
  have h2 : (i + 1) * 2 ^ (32 - p) ≤ 2 ^ (32 - n.prefixlen) := by
    rw [← hpow]
    exact Nat.mul_le_mul_right _ (by omega)
  have h3 := Nat.two_pow_pos (32 - p)
  have h4 : (i + 1) * 2 ^ (32 - p) = i * 2 ^ (32 - p) + 2 ^ (32 - p) := by ring
  rw [h4] at h2
  constructor
  · omega
  · generalize i * 2 ^ (32 - p) = t at h2 ⊢
    omega

lemma find?_decomp {α : Type} {q : α → Bool} :
    ∀ {l : List α} {a : α}, l.find? q = some a →
      ∃ l1 l2, l = l1 ++ a :: l2 ∧ q a = true ∧ ∀ x ∈ l1, q x = false := by
  intro l
  induction l with
  | nil => intro a h; simp at h
  | cons b t ih =>
    intro a h
    by_cases hb : q b = true
    · rw [List.find?_cons_of_pos _ hb] at h
      injection h with h
      subst h
      exact ⟨[], t, rfl, hb, by simp⟩
    · rw [List.find?_cons_of_neg _ hb] at h
      obtain ⟨l1, l2, rfl, hqa, hl1⟩ := ih h
      refine ⟨b :: l1, l2, rfl, hqa, ?_⟩
      intro x hx
      rcases List.mem_cons.mp hx with rfl | hx
      · simpa using hb
      · exact hl1 x hx

/-! ### Sibling packing -/

lemma allocate_ok_inv {vnet : IPv4Network} {w p : Nat} {x y : IPv4Network}
    (h : allocate_two_subnets vnet w p = .ok (x, y)) :
    vnet.prefixlen ≤ w ∧ vnet.prefixlen ≤ p ∧
    ∃ second l1 l2,
      vnet.subnets (max w p) = l1 ++ second :: l2 ∧
      overlaps second ⟨vnet.network_address, min w p⟩ = false ∧
      (∀ c ∈ l1, overlaps c ⟨vnet.network_address, min w p⟩ = true) ∧
      ((min w p = w ∧ x = ⟨vnet.network_address, min w p⟩ ∧ y = second) ∨
       (min w p ≠ w ∧ x = second ∧ y = ⟨vnet.network_address, min w p⟩)) := by
  rw [allocate_two_subnets] at h
  by_cases hg : (w < vnet.prefixlen ∨ p < vnet.prefixlen)
  · rw [if_pos (by simpa using hg)] at h
    simp at h
  push_neg at hg
  rw [if_neg (by simpa using (not_or.mpr ⟨not_lt.mpr hg.1, not_lt.mpr hg.2⟩))] at h
  simp only at h
  have hhead := subnets_head? (n := vnet) (p := min w p) (by omega)
  cases hsub : vnet.subnets (min w p) with
  | nil => rw [hsub] at hhead; simp at hhead
  | cons first rest =>
    rw [hsub] at h hhead
    simp only [List.head?_cons, Option.some.injEq] at hhead
    subst hhead
    dsimp only at h
    cases hf : (vnet.subnets (max w p)).find?
        (fun cand => !overlaps_any cand [⟨vnet.network_address, min w p⟩]) with
    | none => rw [hf] at h; simp at h
    | some second =>
      rw [hf] at h
      dsimp only at h
      obtain ⟨l1, l2, hsplit, hpred, hl1⟩ := find?_decomp hf
      have hov : overlaps second ⟨vnet.network_address, min w p⟩ = false := by
        simpa [overlaps_any] using hpred
      have hl1' : ∀ c ∈ l1, overlaps c ⟨vnet.network_address, min w p⟩ = true := by
        intro c hc
        have := hl1 c hc
        simpa [overlaps_any] using this
      refine ⟨hg.1, hg.2, second, l1, l2, hsplit, hov, hl1', ?_⟩
      by_cases hmw : min w p = w
      · rw [if_pos hmw] at h
        injection h with h
        exact .inl ⟨hmw, congrArg Prod.fst h.symm, congrArg Prod.snd h.symm⟩
      · rw [if_neg hmw] at h
        injection h with h
        exact .inr ⟨hmw, congrArg Prod.fst h.symm, congrArg Prod.snd h.symm⟩

lemma allocate_ok_props {vnet : IPv4Network} {w p : Nat} {x y : IPv4Network}
    (hw : w ≤ 32) (hp : p ≤ 32)
    (h : allocate_two_subnets vnet w p = .ok (x, y)) :
    x.subnet_of vnet = true ∧ y.subnet_of vnet = true ∧ overlaps x y = false := by
  obtain ⟨hw1, hp1, second, l1, l2, hsplit, hov, -, hcase⟩ := allocate_ok_inv h
  have hfmem : (⟨vnet.network_address, min w p⟩ : IPv4Network) ∈
      vnet.subnets (min w p) := by
    rw [mem_subnets (by omega)]
    exact ⟨0, Nat.two_pow_pos _, by simp⟩
  have hfsub : (⟨vnet.network_address, min w p⟩ : IPv4Network).subnet_of vnet = true :=
    subnet_of_of_mem_subnets (by omega) (by omega) hfmem
  have hsmem : second ∈ vnet.subnets (max w p) := by
    rw [hsplit]
    simp
  have hssub : second.subnet_of vnet = true :=
    subnet_of_of_mem_subnets (by omega) (by omega) hsmem
  have hovsym : overlaps (⟨vnet.network_address, min w p⟩ : IPv4Network) second = false := by
    rw [overlaps_comm]
    exact hov
  rcases hcase with ⟨-, rfl, rfl⟩ | ⟨-, rfl, rfl⟩
  · exact ⟨hfsub, hssub, hovsym⟩
  · exact ⟨hssub, hfsub, hov⟩

/-- C5: `allocate_two_subnets` takes the first sub-range at the smaller
prefix length as `first`, the first non-overlapping sub-range at the larger
prefix length as `second`, maps them back by comparing `min` with the
webapp prefix length, and is deterministic. -/
theorem allocate_siblings_spec (vnet : IPv4Network) (w p : Nat)
    (ra rb : IPv4Network)
    (h : allocate_two_subnets vnet w p = .ok (ra, rb)) :
    ∃ first second : IPv4Network,
      (vnet.subnets (min w p)).head? = some first ∧
      (∃ l1 l2, vnet.subnets (max w p) = l1 ++ second :: l2 ∧
        overlaps second first = false ∧ ∀ c ∈ l1, overlaps c first = true) ∧
      (if min w p = w then ra = first ∧ rb = second
       else ra = second ∧ rb = first) ∧
      ∀ ra' rb', allocate_two_subnets vnet w p = .ok (ra', rb') →
        ra' = ra ∧ rb' = rb := by
  obtain ⟨hw, hp, second, l1, l2, hsplit, hov, hl1, hcase⟩ := allocate_ok_inv h
  refine ⟨⟨vnet.network_address, min w p⟩, second, subnets_head? (by omega),
    ⟨l1, l2, hsplit, hov, hl1⟩, ?_, ?_⟩
  · rcases hcase with ⟨hmw, rfl, rfl⟩ | ⟨hmw, rfl, rfl⟩
    · rw [if_pos hmw]
      exact ⟨rfl, rfl⟩
    · rw [if_neg hmw]
      exact ⟨rfl, rfl⟩
  · intro ra' rb' h'
    have := h.symm.trans h'
    injection this with this
    exact ⟨(congrArg Prod.fst this).symm, (congrArg Prod.snd this).symm⟩

/-- Witness for C5: packing two /27 subnets into 10.0.0.0/24. -/
theorem allocate_siblings_spec_witness :
    ∃ first second : IPv4Network,
      ((IPv4Network.mk 167772160 24).subnets (min 27 27)).head? = some first ∧
      (∃ l1 l2, (IPv4Network.mk 167772160 24).subnets (max 27 27) =
          l1 ++ second :: l2 ∧
        overlaps second first = false ∧ ∀ c ∈ l1, overlaps c first = true) ∧
      (if min 27 27 = 27 then
          (⟨167772160, 27⟩ : IPv4Network) = first ∧
            (⟨167772192, 27⟩ : IPv4Network) = second
       else (⟨167772160, 27⟩ : IPv4Network) = second ∧
            (⟨167772192, 27⟩ : IPv4Network) = first) ∧
      ∀ ra' rb', allocate_two_subnets ⟨167772160, 24⟩ 27 27 = .ok (ra', rb') →
        ra' = ⟨167772160, 27⟩ ∧ rb' = ⟨167772192, 27⟩ :=
  allocate_siblings_spec ⟨167772160, 24⟩ 27 27 ⟨167772160, 27⟩ ⟨167772192, 27⟩
    (by decide)

lemma allocate_eq_find (vnet : IPv4Network) (w p : Nat)
    (hw : vnet.prefixlen ≤ w) (hp : vnet.prefixlen ≤ p) :
    allocate_two_subnets vnet w p =
      match (vnet.subnets (max w p)).find?
          (fun cand => !overlaps_any cand [⟨vnet.network_address, min w p⟩]) with
      | some second =>
        if min w p = w then .ok (⟨vnet.network_address, min w p⟩, second)
        else .ok (second, ⟨vnet.network_address, min w p⟩)
      | none => .error .unableToAllocateTwoSubnets := by
  rw [allocate_two_subnets,
    if_neg (by simpa using (not_or.mpr ⟨not_lt.mpr hw, not_lt.mpr hp⟩))]
  simp only
  have hhead := subnets_head? (n := vnet) (p := min w p) (by omega)
  cases hsub : vnet.subnets (min w p) with
  | nil => rw [hsub] at hhead; simp at hhead
  | cons first rest =>
    rw [hsub] at hhead
    simp only [List.head?_cons, Option.some.injEq] at hhead
    subst hhead
    rfl

/-- C10: under valid prefix bounds, packing fails exactly when the larger
child has the parent's own prefix length (and so fills the whole parent). -/
theorem allocate_capacity_iff (vnet : IPv4Network) (w p : Nat)
    (hw1 : vnet.prefixlen ≤ w) (hw2 : w ≤ 32)
    (hp1 : vnet.prefixlen ≤ p) (hp2 : p ≤ 32) :
    (allocate_two_subnets vnet w p).isOk = true ↔ vnet.prefixlen < min w p := by
  rw [allocate_eq_find vnet w p hw1 hp1]
  have hsp1 : vnet.prefixlen ≤ max w p := le_trans hw1 (le_max_left w p)
  have hsp2 : max w p ≤ 32 := by omega
  have hpow : 2 ^ (max w p - vnet.prefixlen) * 2 ^ (32 - max w p) =
      2 ^ (32 - vnet.prefixlen) := by
    rw [← pow_add]
    congr 1
    omega
  have hs := Nat.two_pow_pos (32 - max w p)
  constructor
  · intro hok
    by_contra hlt
    have hfp : min w p = vnet.prefixlen := by omega
    have hnone : (vnet.subnets (max w p)).find?
        (fun cand => !overlaps_any cand [⟨vnet.network_address, min w p⟩]) = none := by
      rw [List.find?_eq_none]
      intro c hc
      obtain ⟨i, hi, rfl⟩ := (mem_subnets hsp1).mp hc
      simp only [overlaps_any, List.any_cons, List.any_nil, Bool.or_false,
        Bool.not_eq_true', Bool.not_eq_false]
      rw [overlaps_eq_true_iff]
      simp only [IPv4Network.broadcast_address, IPv4Network.size, hfp]
      have h2 : (i + 1) * 2 ^ (32 - max w p) ≤ 2 ^ (32 - vnet.prefixlen) := by
        rw [← hpow]
        exact Nat.mul_le_mul_right _ (by omega)
      have h4 : (i + 1) * 2 ^ (32 - max w p) =
          i * 2 ^ (32 - max w p) + 2 ^ (32 - max w p) := by ring
      rw [h4] at h2
      have hS := Nat.two_pow_pos (32 - vnet.prefixlen)
      generalize i * 2 ^ (32 - max w p) = t at h2 ⊢
      omega
    rw [hnone] at hok
    simp [Except.isOk, Except.toBool] at hok
  · intro hlt
    have hfpsp : min w p ≤ max w p := min_le_max
    have hcmem : (⟨vnet.network_address +
        2 ^ (max w p - min w p) * 2 ^ (32 - max w p), max w p⟩ : IPv4Network) ∈
        vnet.subnets (max w p) := by
      rw [mem_subnets hsp1]
      exact ⟨2 ^ (max w p - min w p),
        Nat.pow_lt_pow_right (by norm_num) (by omega), rfl⟩
    have hpow2 : 2 ^ (max w p - min w p) * 2 ^ (32 - max w p) =
        2 ^ (32 - min w p) := by
      rw [← pow_add]
      congr 1
      omega
    have hpred : overlaps
        (⟨vnet.network_address + 2 ^ (max w p - min w p) * 2 ^ (32 - max w p),
          max w p⟩ : IPv4Network)
        (⟨vnet.network_address, min w p⟩ : IPv4Network) = false := by
      cases hov : overlaps
          (⟨vnet.network_address + 2 ^ (max w p - min w p) * 2 ^ (32 - max w p),
            max w p⟩ : IPv4Network)
          (⟨vnet.network_address, min w p⟩ : IPv4Network) with
      | false => rfl
      | true =>
        exfalso
        obtain ⟨-, h2⟩ := (overlaps_eq_true_iff _ _).mp hov
        simp only [IPv4Network.broadcast_address, IPv4Network.size, hpow2] at h2
        have := Nat.two_pow_pos (32 - min w p)
        omega
    have hsome : ((vnet.subnets (max w p)).find?
        (fun cand => !overlaps_any cand [⟨vnet.network_address, min w p⟩])).isSome = true := by
      rw [List.find?_isSome]
      refine ⟨_, hcmem, ?_⟩
      simp only [overlaps_any, List.any_cons, List.any_nil, Bool.or_false,
        Bool.not_eq_true', hpred]
    cases hf : (vnet.subnets (max w p)).find?
        (fun cand => !overlaps_any cand [⟨vnet.network_address, min w p⟩]) with
    | none => rw [hf] at hsome; simp at hsome
    | some s =>
      dsimp only
      split
      · rfl
      · rfl

/-- Witness for C10: a /24 parent packs two /27 children, and `24 < 27`. -/
theorem allocate_capacity_iff_witness :
    ((allocate_two_subnets ⟨167772160, 24⟩ 27 27).isOk = true ↔ 24 < min 27 27) ∧
      (allocate_two_subnets ⟨167772160, 24⟩ 27 27).isOk = true := by
  have h := allocate_capacity_iff ⟨167772160, 24⟩ 27 27 (by decide) (by decide)
    (by decide) (by decide)
  exact ⟨h, h.mpr (by decide)⟩

/-! ### The bounded-base allocator -/

lemma first_free_ok_inv {base : IPv4Network} {pl : Nat}
    {used : List IPv4Network} {v : IPv4Network}
    (h : first_free_subnet base pl used = .ok v) :
    base.prefixlen ≤ pl ∧ v ∈ base.subnets pl ∧ overlaps_any v used = false := by
  rw [first_free_subnet] at h
  by_cases hpl : pl < base.prefixlen
  · rw [if_pos hpl] at h
    simp at h
  rw [if_neg hpl] at h
  cases hf : (base.subnets pl).find? (fun c => !overlaps_any c used) with
  | none => rw [hf] at h; simp at h
  | some c =>
    rw [hf] at h
    injection h with h
    subst h
    have hpred := List.find?_some hf
    exact ⟨by omega, List.mem_of_find?_eq_some hf, by simpa using hpred⟩

lemma build_plan_go_ok_inv {used : List IPv4Network} {base : IPv4Network}
    {w p : Nat} :
    ∀ {l : List Nat} {plan : Plan}, build_plan_go used base w p l = .ok plan →
      ∃ pl ∈ l, first_free_subnet base pl used = .ok plan.vnet ∧
        allocate_two_subnets plan.vnet w p =
          .ok (plan.webapp_subnet, plan.private_endpoint_subnet) := by
  intro l
  induction l with
  | nil =>
    intro plan h
    simp [build_plan_go] at h
  | cons pl rest ih =>
    intro plan h
    cases hff : first_free_subnet base pl used with
    | error e =>
      simp only [build_plan_go, hff] at h
      by_cases he : e.isRuntimeError = true
      · rw [if_pos he] at h
        obtain ⟨pl', hmem, hrest⟩ := ih h
        exact ⟨pl', List.mem_cons_of_mem _ hmem, hrest⟩
      · rw [if_neg he] at h
        simp at h
    | ok vnet =>
      simp only [build_plan_go, hff] at h
      cases hal : allocate_two_subnets vnet w p with
      | ok pr =>
        obtain ⟨webapp, pe⟩ := pr
        rw [hal] at h
        dsimp only at h
        injection h with h
        subst h
        exact ⟨pl, List.mem_cons_self _ _, hff, hal⟩
      | error e =>
        rw [hal] at h
        dsimp only at h
        by_cases he : e.isRuntimeError = true
        · rw [if_pos he] at h
          obtain ⟨pl', hmem, hrest⟩ := ih h
          exact ⟨pl', List.mem_cons_of_mem _ hmem, hrest⟩
        · rw [if_neg he] at h
          simp at h

/-! ### The octet-rollover allocator -/

lemma rollover_go_ok_inv {used : List IPv4Network} {sb : IPv4Network}
    {w p : Nat} :
    ∀ {l : List IPv4Network} {tried : Nat} {lastErr : Option IPErr} {plan : Plan},
      rollover_go used sb w p l tried lastErr = .ok plan →
      overlaps_any plan.vnet used = false ∧
        allocate_two_subnets plan.vnet w p =
          .ok (plan.webapp_subnet, plan.private_endpoint_subnet) := by
  intro l
  induction l with
  | nil =>
    intro tried lastErr plan h
    simp only [rollover_go] at h
    cases hps : pool_for_octet_search sb with
    | error e => rw [hps] at h; simp at h
    | ok pr =>
      obtain ⟨pool, lo, stp⟩ := pr
      rw [hps] at h
      dsimp only at h
      by_cases hany : used.any (fun u => pool.subnet_of u) = true
      · rw [if_pos hany] at h
        simp at h
      · rw [if_neg hany] at h
        cases lastErr <;> simp at h
  | cons c rest ih =>
    intro tried lastErr plan h
    simp only [rollover_go] at h
    by_cases hov : overlaps_any c used = true
    · rw [if_pos hov] at h
      exact ih h
    · rw [if_neg hov] at h
      cases hal : allocate_two_subnets c w p with
      | ok pr =>
        obtain ⟨webapp, pe⟩ := pr
        rw [hal] at h
        dsimp only at h
        injection h with h
        subst h
        exact ⟨by simpa using hov, hal⟩
      | error e =>
        rw [hal] at h
        exact ih h

/-- C1: every `Plan` produced by either allocator has a parent network that
avoids the used list, children contained in the parent, and children that do
not overlap each other. -/
theorem plan_invariants (used : List IPv4Network) (base : IPv4Network)
    (v w p : Nat) (st3 : Int) (plan : Plan) (hw : w ≤ 32) (hp : p ≤ 32)
    (h : build_plan used base v w p = .ok plan ∨
         build_plan_with_rollover used base v w p st3 = .ok plan) :
    overlaps_any plan.vnet used = false ∧
    plan.webapp_subnet.subnet_of plan.vnet = true ∧
    plan.private_endpoint_subnet.subnet_of plan.vnet = true ∧
    overlaps plan.webapp_subnet plan.private_endpoint_subnet = false := by
  have key : overlaps_any plan.vnet used = false ∧
      allocate_two_subnets plan.vnet w p =
        .ok (plan.webapp_subnet, plan.private_endpoint_subnet) := by
    rcases h with h | h
    · obtain ⟨pl, -, hff, hal⟩ := build_plan_go_ok_inv h
      exact ⟨(first_free_ok_inv hff).2.2, hal⟩
    · rw [build_plan_with_rollover] at h
      cases hit : iter_third_then_second_octet_vnets base v st3 with
      | error e => rw [hit] at h; simp at h
      | ok cands =>
        rw [hit] at h
        exact rollover_go_ok_inv h
  obtain ⟨h1, h2⟩ := key
  obtain ⟨h3, h4, h5⟩ := allocate_ok_props hw hp h2
  exact ⟨h1, h3, h4, h5⟩

/-- Witness for C1 via the bounded-base allocator on an empty used list. -/
theorem plan_invariants_witness :
    overlaps_any ⟨167772160, 24⟩ [] = false ∧
    IPv4Network.subnet_of ⟨167772160, 27⟩ ⟨167772160, 24⟩ = true ∧
    IPv4Network.subnet_of ⟨167772192, 27⟩ ⟨167772160, 24⟩ = true ∧
    overlaps ⟨167772160, 27⟩ ⟨167772192, 27⟩ = false :=
  plan_invariants [] ⟨167772160, 24⟩ 24 27 27 0
    ⟨⟨167772160, 24⟩, ⟨167772160, 27⟩, ⟨167772192, 27⟩⟩
    (by decide) (by decide) (.inl (by decide))

/-- A prefix length whose attempt fails in a way `build_plan`'s loop retries:
either no free parent was found at that size, or the parent could not be
packed, in both cases with a `RuntimeError`. -/
def stepFails (used : List IPv4Network) (base : IPv4Network) (w p pl : Nat) :
    Prop :=
  (∃ e, first_free_subnet base pl used = .error e ∧ e.isRuntimeError = true) ∨
  (∃ vnet e, first_free_subnet base pl used = .ok vnet ∧
    allocate_two_subnets vnet w p = .error e ∧ e.isRuntimeError = true)

lemma build_plan_go_ok_first {used : List IPv4Network} {base : IPv4Network}
    {w p : Nat} :
    ∀ {l : List Nat} {plan : Plan}, build_plan_go used base w p l = .ok plan →
      ∃ l1 pl l2, l = l1 ++ pl :: l2 ∧
        (∀ q ∈ l1, stepFails used base w p q) ∧
        first_free_subnet base pl used = .ok plan.vnet ∧
        allocate_two_subnets plan.vnet w p =
          .ok (plan.webapp_subnet, plan.private_endpoint_subnet) := by
  intro l
  induction l with
  | nil =>
    intro plan h
    simp [build_plan_go] at h
  | cons pl rest ih =>
    intro plan h
    cases hff : first_free_subnet base pl used with
    | error e =>
      simp only [build_plan_go, hff] at h
      by_cases he : e.isRuntimeError = true
      · rw [if_pos he] at h
        obtain ⟨l1, pl', l2, rfl, hfails, hrest⟩ := ih h
        refine ⟨pl :: l1, pl', l2, rfl, ?_, hrest⟩
        intro q hq
        rcases List.mem_cons.mp hq with rfl | hq
        · exact .inl ⟨e, hff, he⟩
        · exact hfails q hq
      · rw [if_neg he] at h
        simp at h
    | ok vnet =>
      simp only [build_plan_go, hff] at h
      cases hal : allocate_two_subnets vnet w p with
      | ok pr =>
        obtain ⟨webapp, pe⟩ := pr
        rw [hal] at h
        dsimp only at h
        injection h with h
        subst h
        exact ⟨[], pl, rest, rfl, by simp, hff, hal⟩
      | error e =>
        rw [hal] at h
        dsimp only at h
        by_cases he : e.isRuntimeError = true
        · rw [if_pos he] at h
          obtain ⟨l1, pl', l2, rfl, hfails, hrest⟩ := ih h
          refine ⟨pl :: l1, pl', l2, rfl, ?_, hrest⟩
          intro q hq
          rcases List.mem_cons.mp hq with rfl | hq
          · exact .inr ⟨vnet, e, hff, hal, he⟩
          · exact hfails q hq
        · rw [if_neg he] at h
          simp at h

lemma build_plan_go_exhaust_iff {used : List IPv4Network} {base : IPv4Network}
    {w p : Nat} :
    ∀ {l : List Nat}, build_plan_go used base w p l = .error .noVnetSizeFits ↔
      ∀ q ∈ l, stepFails used base w p q := by
  intro l
  induction l with
  | nil => simp [build_plan_go]
  | cons pl rest ih =>
    constructor
    · intro h q hq
      cases hff : first_free_subnet base pl used with
      | error e =>
        simp only [build_plan_go, hff] at h
        by_cases he : e.isRuntimeError = true
        · rw [if_pos he] at h
          rcases List.mem_cons.mp hq with rfl | hq
          · exact .inl ⟨e, hff, he⟩
          · exact ih.mp h q hq
        · rw [if_neg he] at h
          injection h with h
          subst h
          simp [IPErr.isRuntimeError] at he
      | ok vnet =>
        simp only [build_plan_go, hff] at h
        cases hal : allocate_two_subnets vnet w p with
        | ok pr =>
          rw [hal] at h
          obtain ⟨webapp, pe⟩ := pr
          simp at h
        | error e =>
          rw [hal] at h
          dsimp only at h
          by_cases he : e.isRuntimeError = true
          · rw [if_pos he] at h
            rcases List.mem_cons.mp hq with rfl | hq
            · exact .inr ⟨vnet, e, hff, hal, he⟩
            · exact ih.mp h q hq
          · rw [if_neg he] at h
            injection h with h
            subst h
            simp [IPErr.isRuntimeError] at he
    · intro hall
      have hpl := hall pl (List.mem_cons_self _ _)
      have hrest : build_plan_go used base w p rest = .error .noVnetSizeFits :=
        ih.mpr (fun q hq => hall q (List.mem_cons_of_mem _ hq))
      rcases hpl with ⟨e, hff, he⟩ | ⟨vnet, e, hff, hal, he⟩
      · simp only [build_plan_go, hff]
        rw [if_pos he]
        exact hrest
      · simp only [build_plan_go, hff, hal]
        rw [if_pos he]
        exact hrest

lemma descRange_length {hi lo : Nat} : (descRange hi lo).length = hi + 1 - lo := by
  simp [descRange]

lemma descRange_getElem {hi lo i : Nat} (h : i < (descRange hi lo).length) :
    (descRange hi lo)[i] = hi - i := by
  simp [descRange]

lemma mem_descRange {hi lo q : Nat} : q ∈ descRange hi lo ↔ lo ≤ q ∧ q ≤ hi := by
  simp only [descRange, List.mem_map, List.mem_range]
  constructor
  · rintro ⟨i, hi', rfl⟩
    omega
  · rintro ⟨h1, h2⟩
    exact ⟨hi - q, by omega, by omega⟩

/-- Counterexample to C2 as stated: with `base = 10.0.0.0/20`,
`vnetPrefixLen = 24`, subnet lengths 23 and 27, the packer's rejection of the
/23 child inside the first /24 parent is a `ValueError`, which `build_plan`
propagates instead of retrying — even though a larger parent (/22) in the
allowed range admits both a free parent and a successful packing, and the
resulting failure is not the `NoCapacity` exhaustion error. -/
theorem build_plan_retry_counterexample :
    build_plan [] ⟨167772160, 20⟩ 24 23 27 = .error .subnetPrefixOutsideVnet ∧
    IPErr.isRuntimeError .subnetPrefixOutsideVnet = false ∧
    IPErr.isRuntimeError .noVnetSizeFits = true ∧
    first_free_subnet ⟨167772160, 20⟩ 22 [] = .ok ⟨167772160, 22⟩ ∧
    allocate_two_subnets ⟨167772160, 22⟩ 23 27 =
      .ok (⟨167772160, 23⟩, ⟨167772672, 27⟩) :=
  ⟨by decide, rfl, rfl, by decide, by decide⟩

/-- C2 (amended): `build_plan` walks prefix lengths from the requested one
down to the base's own, retrying only attempts that fail with the retryable
(`RuntimeError`) capacity failures; a returned plan comes from the first
prefix length in that order whose parent is free and packs, and the
`NoCapacity` exhaustion error occurs exactly when every size in the range
fails that way.  (Non-retryable packer errors propagate instead, see the
counterexample.) -/
theorem build_plan_first_success (used : List IPv4Network) (base : IPv4Network)
    (v w p : Nat) :
    (∀ plan, build_plan used base v w p = .ok plan →
      ∃ pl, base.prefixlen ≤ pl ∧ pl ≤ v ∧
        first_free_subnet base pl used = .ok plan.vnet ∧
        allocate_two_subnets plan.vnet w p =
          .ok (plan.webapp_subnet, plan.private_endpoint_subnet) ∧
        ∀ q, pl < q → q ≤ v → stepFails used base w p q) ∧
    (build_plan used base v w p = .error .noVnetSizeFits ↔
      ∀ q, base.prefixlen ≤ q → q ≤ v → stepFails used base w p q) := by
  constructor
  · intro plan h
    rw [build_plan] at h
    obtain ⟨l1, pl, l2, hsplit, hfails, hff, hal⟩ := build_plan_go_ok_first h
    have hlen : l1.length + (l2.length + 1) = v + 1 - base.prefixlen := by
      have := congrArg List.length hsplit
      simp [descRange_length] at this
      omega
    have hplval : pl = v - l1.length := by
      have hidx : l1.length < (descRange v base.prefixlen).length := by
        rw [descRange_length]
        omega
      have h1 := List.getElem_of_eq hsplit hidx
      rw [List.getElem_append_right (Nat.le_refl _)] at h1
      simp only [Nat.sub_self, List.getElem_cons_zero] at h1
      rw [descRange_getElem hidx] at h1
      omega
    have hmempl : pl ∈ descRange v base.prefixlen := by
      rw [hsplit]
      simp
    obtain ⟨hlo, hhi⟩ := mem_descRange.mp hmempl
    refine ⟨pl, hlo, hhi, hff, hal, ?_⟩
    intro q hq1 hq2
    have hjlt : v - q < l1.length := by omega
    have hidx : v - q < (descRange v base.prefixlen).length := by
      rw [descRange_length]
      omega
    have hget : (descRange v base.prefixlen)[v - q] = q := by
      rw [descRange_getElem hidx]
      omega
    have hmem : q ∈ l1 := by
      have h2 := List.getElem_of_eq hsplit hidx
      rw [List.getElem_append_left hjlt] at h2
      rw [hget] at h2
      rw [h2]
      exact List.getElem_mem _
    exact hfails q hmem
  · rw [build_plan, build_plan_go_exhaust_iff]
    constructor
    · intro hall q h1 h2
      exact hall q (mem_descRange.mpr ⟨h1, h2⟩)
    · intro hall q hq
      obtain ⟨h1, h2⟩ := mem_descRange.mp hq
      exact hall q h1 h2

/-- Witness for the amended C2 on an immediately successful instance. -/
theorem build_plan_first_success_witness :
    ∃ pl, 24 ≤ pl ∧ pl ≤ 24 ∧
      first_free_subnet ⟨167772160, 24⟩ pl [] = .ok ⟨167772160, 24⟩ ∧
      allocate_two_subnets ⟨167772160, 24⟩ 27 27 =
        .ok (⟨167772160, 27⟩, ⟨167772192, 27⟩) ∧
      ∀ q, pl < q → q ≤ 24 → stepFails [] ⟨167772160, 24⟩ 27 27 q :=
  (build_plan_first_success [] ⟨167772160, 24⟩ 24 27 27).1
    ⟨⟨167772160, 24⟩, ⟨167772160, 27⟩, ⟨167772192, 27⟩⟩ (by decide)

lemma mem_subnets_iff_of_aligned {base x : IPv4Network} {pl : Nat}
    (h1 : base.prefixlen ≤ pl) (h2 : pl ≤ 32)
    (hb : 2 ^ (32 - base.prefixlen) ∣ base.network_address) :
    x ∈ base.subnets pl ↔
      x.prefixlen = pl ∧ x.subnet_of base = true ∧
        2 ^ (32 - pl) ∣ x.network_address := by
  have hdvdpow : (2 : Nat) ^ (32 - pl) ∣ 2 ^ (32 - base.prefixlen) :=
    pow_dvd_pow 2 (by omega)
  have hs := Nat.two_pow_pos (32 - pl)
  have hpow : 2 ^ (pl - base.prefixlen) * 2 ^ (32 - pl) =
      2 ^ (32 - base.prefixlen) := by
    rw [← pow_add]
    congr 1
    omega
  constructor
  · intro hx
    obtain ⟨i, hi, heq⟩ := (mem_subnets h1).mp hx
    refine ⟨by rw [heq], subnet_of_of_mem_subnets h1 h2 hx, ?_⟩
    rw [heq]
    exact Nat.dvd_add (dvd_trans hdvdpow hb) (dvd_mul_left _ i)
  · rintro ⟨hpl, hsub, hdvd⟩
    simp only [IPv4Network.subnet_of, Bool.and_eq_true, decide_eq_true_eq,
      IPv4Network.broadcast_address, IPv4Network.size] at hsub
    obtain ⟨hlo, hhi⟩ := hsub
    rw [hpl] at hhi
    have hdvdbase : 2 ^ (32 - pl) ∣ base.network_address :=
      dvd_trans hdvdpow hb
    obtain ⟨j, hj⟩ := hdvd
    obtain ⟨k, hk⟩ := hdvdbase
    have hS := Nat.two_pow_pos (32 - base.prefixlen)
    have hkj : k ≤ j := by
      by_contra hkj
      push_neg at hkj
      have : x.network_address < base.network_address := by
        rw [hj, hk]
        exact (Nat.mul_lt_mul_left hs).mpr hkj
      omega
    have hineq : x.network_address + 2 ^ (32 - pl) ≤
        base.network_address + 2 ^ (32 - base.prefixlen) := by
      omega
    have hj1 : j + 1 ≤ k + 2 ^ (pl - base.prefixlen) := by
      have h3 : 2 ^ (32 - pl) * (j + 1) ≤
          2 ^ (32 - pl) * (k + 2 ^ (pl - base.prefixlen)) := by
        rw [Nat.mul_add, Nat.mul_add, Nat.mul_one]
        calc 2 ^ (32 - pl) * j + 2 ^ (32 - pl)
            = x.network_address + 2 ^ (32 - pl) := by rw [hj]
          _ ≤ base.network_address + 2 ^ (32 - base.prefixlen) := hineq
          _ = 2 ^ (32 - pl) * k + 2 ^ (32 - pl) * 2 ^ (pl - base.prefixlen) := by
              rw [hk]
              congr 1
              rw [← hpow]
              ring
      exact Nat.le_of_mul_le_mul_left h3 hs
    refine (mem_subnets h1).mpr ⟨j - k, by omega, ?_⟩
    have hna : x.network_address =
        base.network_address + (j - k) * 2 ^ (32 - pl) := by
      have hjk : j = k + (j - k) := by omega
      calc x.network_address = 2 ^ (32 - pl) * j := hj
        _ = 2 ^ (32 - pl) * k + (j - k) * 2 ^ (32 - pl) := by
            nth_rewrite 1 [hjk]
            ring
        _ = base.network_address + (j - k) * 2 ^ (32 - pl) := by rw [hk]
    cases x with
    | mk xna xpl =>
      simp only at hpl hna
      rw [hpl, hna]

/-- Counterexample to C9 as stated: the two failure modes of
`first_free_subnet` are different error kinds.  Requesting a range larger
than the base raises the non-retryable `ValueError` (the error `build_plan`
propagates), not the retryable `NoCapacity` (`RuntimeError`) that the
all-candidates-overlap case raises. -/
theorem first_free_subnet_error_kind_counterexample :
    first_free_subnet ⟨167772160, 24⟩ 16 [] =
      .error .requestedPrefixLargerThanBase ∧
    IPErr.isRuntimeError .requestedPrefixLargerThanBase = false ∧
    first_free_subnet ⟨167772160, 24⟩ 24 [⟨167772160, 24⟩] =
      .error .noFreeSubnetInBase ∧
    IPErr.isRuntimeError .noFreeSubnetInBase = true ∧
    IPErr.requestedPrefixLargerThanBase ≠ IPErr.noFreeSubnetInBase :=
  ⟨by decide, rfl, by decide, rfl, by decide⟩

/-- C9 (amended): `first_free_subnet` enumerates the sub-ranges of the base
at the requested length in increasing address order and returns the first
that avoids the used list; it fails with the non-retryable invalid-prefix
error when the requested length is smaller than the base's own, and with the
retryable `NoCapacity` error when every candidate overlaps.  The enumeration
is sorted and (for an aligned base) complete. -/
theorem first_free_subnet_spec (base : IPv4Network) (pl : Nat)
    (used : List IPv4Network) :
    (pl < base.prefixlen →
      first_free_subnet base pl used = .error .requestedPrefixLargerThanBase) ∧
    ((∀ c ∈ base.subnets pl, overlaps_any c used = true) →
      base.prefixlen ≤ pl →
      first_free_subnet base pl used = .error .noFreeSubnetInBase) ∧
    (∀ r, first_free_subnet base pl used = .ok r →
      ∃ l1 l2, base.subnets pl = l1 ++ r :: l2 ∧
        overlaps_any r used = false ∧
        ∀ c ∈ l1, overlaps_any c used = true) ∧
    List.Pairwise (fun x y => x.network_address < y.network_address)
      (base.subnets pl) ∧
    (base.prefixlen ≤ pl → pl ≤ 32 →
      2 ^ (32 - base.prefixlen) ∣ base.network_address →
      ∀ x, x ∈ base.subnets pl ↔ x.prefixlen = pl ∧
        x.subnet_of base = true ∧ 2 ^ (32 - pl) ∣ x.network_address) := by
  refine ⟨?_, ?_, ?_, subnets_sorted base pl, ?_⟩
  · intro hpl
    rw [first_free_subnet, if_pos hpl]
  · intro hall hple
    rw [first_free_subnet, if_neg (by omega)]
    have hnone : (base.subnets pl).find? (fun c => !overlaps_any c used) = none := by
      rw [List.find?_eq_none]
      intro c hc
      simp [hall c hc]
    rw [hnone]
  · intro r h
    rw [first_free_subnet] at h
    by_cases hpl : pl < base.prefixlen
    · rw [if_pos hpl] at h
      simp at h
    rw [if_neg hpl] at h
    cases hf : (base.subnets pl).find? (fun c => !overlaps_any c used) with
    | none => rw [hf] at h; simp at h
    | some c =>
      rw [hf] at h
      injection h with h
      subst h
      obtain ⟨l1, l2, hsplit, hpred, hl1⟩ := find?_decomp hf
      refine ⟨l1, l2, hsplit, by simpa using hpred, ?_⟩
      intro c' hc'
      have := hl1 c' hc'
      simpa using this
  · intro h1 h2 hb x
    exact mem_subnets_iff_of_aligned h1 h2 hb

/-- Witness for the amended C9: with 10.0.0.0/26 already used inside
10.0.0.0/24, the first free /26 is 10.0.0.64/26, preceded only by
overlapping candidates. -/
theorem first_free_subnet_spec_witness :
    ∃ l1 l2, (IPv4Network.mk 167772160 24).subnets 26 =
        l1 ++ (⟨167772224, 26⟩ : IPv4Network) :: l2 ∧
      overlaps_any ⟨167772224, 26⟩ [⟨167772160, 26⟩] = false ∧
      ∀ c ∈ l1, overlaps_any c [⟨167772160, 26⟩] = true :=
  (first_free_subnet_spec ⟨167772160, 24⟩ 26 [⟨167772160, 26⟩]).2.2.1
    ⟨167772224, 26⟩ (by decide)

/-! ### The candidate generator -/

lemma mem_octet_block {a second third vpl : Nat} (h24 : 24 ≤ vpl)
    {x : IPv4Network} :
    x ∈ octet_block a second third vpl ↔
      ∃ j < 2 ^ (vpl - 24),
        x = ⟨a * 2 ^ 24 + second * 2 ^ 16 + third * 2 ^ 8 +
              j * 2 ^ (32 - vpl), vpl⟩ := by
  rw [octet_block]
  by_cases hv : vpl = 24
  · subst hv
    simp only [if_pos rfl, List.mem_singleton]
    constructor
    · intro hx
      exact ⟨0, Nat.two_pow_pos _, by simpa using hx⟩
    · rintro ⟨j, hj, rfl⟩
      have : j = 0 := by simpa using hj
      subst this
      simp
  · rw [if_neg hv]
    exact mem_subnets (by simpa using h24)

lemma octet_block_sorted (a second third vpl : Nat) :
    List.Pairwise (fun x y => x.network_address < y.network_address)
      (octet_block a second third vpl) := by
  rw [octet_block]
  by_cases hv : vpl = 24
  · simp [hv]
  · rw [if_neg hv]
    exact subnets_sorted _ _

lemma octet_block_bounds {a second third vpl : Nat} (h24 : 24 ≤ vpl)
    (h32 : vpl ≤ 32) {x : IPv4Network} (hx : x ∈ octet_block a second third vpl) :
    a * 2 ^ 24 + second * 2 ^ 16 + third * 2 ^ 8 ≤ x.network_address ∧
      x.network_address < a * 2 ^ 24 + second * 2 ^ 16 + third * 2 ^ 8 + 256 := by
  obtain ⟨j, hj, rfl⟩ := (mem_octet_block h24).mp hx
  have hpow : 2 ^ (vpl - 24) * 2 ^ (32 - vpl) = 2 ^ 8 := by
    rw [← pow_add]
    congr 1
    omega
  have h2 : (j + 1) * 2 ^ (32 - vpl) ≤ 2 ^ 8 := by
    rw [← hpow]
    exact Nat.mul_le_mul_right _ (by omega)
  have h3 : (j + 1) * 2 ^ (32 - vpl) = j * 2 ^ (32 - vpl) + 2 ^ (32 - vpl) := by
    ring
  rw [h3] at h2
  have hs := Nat.two_pow_pos (32 - vpl)
  simp only
  generalize j * 2 ^ (32 - vpl) = u at h2 ⊢
  omega

lemma mem_octet_candidates_inner {a ssec second st3n vpl : Nat}
    (h24 : 24 ≤ vpl) {x : IPv4Network} :
    x ∈ octet_candidates_inner a ssec second st3n vpl ↔
      ∃ t j, (second = ssec → st3n ≤ t) ∧ t ≤ 255 ∧ j < 2 ^ (vpl - 24) ∧
        x = ⟨a * 2 ^ 24 + second * 2 ^ 16 + t * 2 ^ 8 +
              j * 2 ^ (32 - vpl), vpl⟩ := by
  rw [octet_candidates_inner]
  simp only [List.mem_flatMap, List.mem_range]
  constructor
  · rintro ⟨i, hi, hx⟩
    obtain ⟨j, hj, rfl⟩ := (mem_octet_block h24).mp hx
    by_cases hss : second = ssec
    · rw [if_pos hss] at hi ⊢
      exact ⟨st3n + i, j, fun _ => by omega, by omega, hj, rfl⟩
    · rw [if_neg hss] at hi ⊢
      exact ⟨0 + i, j, fun h => absurd h hss, by omega, hj, rfl⟩
  · rintro ⟨t, j, hts, ht, hj, rfl⟩
    by_cases hss : second = ssec
    · have htt : st3n + (t - st3n) = t := by
        have := hts hss
        omega
      refine ⟨t - st3n, by rw [if_pos hss]; have := hts hss; omega, ?_⟩
      rw [mem_octet_block h24]
      refine ⟨j, hj, ?_⟩
      rw [if_pos hss, htt]
    · refine ⟨t, by rw [if_neg hss]; omega, ?_⟩
      rw [mem_octet_block h24]
      refine ⟨j, hj, ?_⟩
      rw [if_neg hss, Nat.zero_add]

lemma octet_candidates_inner_sorted (a ssec second st3n vpl : Nat)
    (h24 : 24 ≤ vpl) (h32 : vpl ≤ 32) :
    List.Pairwise (fun x y => x.network_address < y.network_address)
      (octet_candidates_inner a ssec second st3n vpl) := by
  rw [octet_candidates_inner, List.pairwise_flatMap]
  refine ⟨fun _ _ => octet_block_sorted _ _ _ _, ?_⟩
  refine (List.pairwise_lt_range _).imp ?_
  intro i i' hii x hx y hy
  have hb1 := (octet_block_bounds h24 h32 hx).2
  have hb2 := (octet_block_bounds h24 h32 hy).1
  have hstep : (if second = ssec then st3n else 0) + i + 1 ≤
      (if second = ssec then st3n else 0) + i' := by omega
  have h256 : ((if second = ssec then st3n else 0) + i) * 2 ^ 8 + 256 ≤
      ((if second = ssec then st3n else 0) + i') * 2 ^ 8 := by
    have := Nat.mul_le_mul_right (2 ^ 8) hstep
    simpa [Nat.add_mul] using this
  omega

lemma octet_candidates_inner_bounds {a ssec second st3n vpl : Nat}
    (h24 : 24 ≤ vpl) (h32 : vpl ≤ 32) {x : IPv4Network}
    (hx : x ∈ octet_candidates_inner a ssec second st3n vpl) :
    a * 2 ^ 24 + second * 2 ^ 16 ≤ x.network_address ∧
      x.network_address < a * 2 ^ 24 + (second + 1) * 2 ^ 16 := by
  obtain ⟨t, j, -, ht, hj, rfl⟩ := (mem_octet_candidates_inner h24).mp hx
  have hpow : 2 ^ (vpl - 24) * 2 ^ (32 - vpl) = 2 ^ 8 := by
    rw [← pow_add]
    congr 1
    omega
  have h2 : (j + 1) * 2 ^ (32 - vpl) ≤ 2 ^ 8 := by
    rw [← hpow]
    exact Nat.mul_le_mul_right _ (by omega)
  have h3 : (j + 1) * 2 ^ (32 - vpl) = j * 2 ^ (32 - vpl) + 2 ^ (32 - vpl) := by
    ring
  rw [h3] at h2
  have hs := Nat.two_pow_pos (32 - vpl)
  have ht8 : t * 2 ^ 8 ≤ 255 * 2 ^ 8 := Nat.mul_le_mul_right _ ht
  simp only
  generalize j * 2 ^ (32 - vpl) = u at h2 ⊢
  have : (second + 1) * 2 ^ 16 = second * 2 ^ 16 + 2 ^ 16 := by ring
  omega

lemma mem_octet_candidates {a ssec stp st3n vpl : Nat} (h24 : 24 ≤ vpl)
    {x : IPv4Network} :
    x ∈ octet_candidates a ssec stp st3n vpl ↔
      ∃ s t j, ssec ≤ s ∧ s < stp ∧ (s = ssec → st3n ≤ t) ∧ t ≤ 255 ∧
        j < 2 ^ (vpl - 24) ∧
        x = ⟨a * 2 ^ 24 + s * 2 ^ 16 + t * 2 ^ 8 + j * 2 ^ (32 - vpl), vpl⟩ := by
  rw [octet_candidates]
  simp only [List.mem_flatMap, List.mem_range]
  constructor
  · rintro ⟨i, hi, hx⟩
    obtain ⟨t, j, hts, ht, hj, rfl⟩ := (mem_octet_candidates_inner h24).mp hx
    exact ⟨ssec + i, t, j, by omega, by omega, hts, ht, hj, rfl⟩
  · rintro ⟨s, t, j, hs1, hs2, hts, ht, hj, rfl⟩
    refine ⟨s - ssec, by omega, ?_⟩
    rw [mem_octet_candidates_inner h24]
    have hss : ssec + (s - ssec) = s := by omega
    refine ⟨t, j, ?_, ht, hj, ?_⟩
    · intro h
      apply hts
      omega
    · rw [hss]

lemma octet_candidates_sorted (a ssec stp st3n vpl : Nat)
    (h24 : 24 ≤ vpl) (h32 : vpl ≤ 32) :
    List.Pairwise (fun x y => x.network_address < y.network_address)
      (octet_candidates a ssec stp st3n vpl) := by
  rw [octet_candidates, List.pairwise_flatMap]
  refine ⟨fun _ _ => octet_candidates_inner_sorted _ _ _ _ _ h24 h32, ?_⟩
  refine (List.pairwise_lt_range _).imp ?_
  intro i i' hii x hx y hy
  have hb1 := (octet_candidates_inner_bounds h24 h32 hx).2
  have hb2 := (octet_candidates_inner_bounds h24 h32 hy).1
  have hstep : (ssec + i + 1) * 2 ^ 16 ≤ (ssec + i') * 2 ^ 16 :=
    Nat.mul_le_mul_right _ (by omega)
  omega

lemma iter_eq_ok {sb : IPv4Network} {vpl : Nat} {st3 : Int}
    {pool : IPv4Network} {lo stp : Nat}
    (h24 : 24 ≤ vpl)
    (hpool : pool_for_octet_search sb = .ok (pool, lo, stp))
    (h3a : 0 ≤ st3) (h3b : st3 ≤ 255)
    (hlo : lo ≤ sb.network_address / 2 ^ 16 % 256)
    (hhi : sb.network_address / 2 ^ 16 % 256 < stp) :
    iter_third_then_second_octet_vnets sb vpl st3 =
      .ok (octet_candidates (sb.network_address / 2 ^ 24)
        (sb.network_address / 2 ^ 16 % 256) stp st3.toNat vpl) := by
  rw [iter_third_then_second_octet_vnets, if_neg (by omega), hpool]
  dsimp only
  rw [if_neg (not_not_intro ⟨h3a, h3b⟩), if_neg (not_not_intro ⟨hlo, hhi⟩)]

/-- C3: the rollover generator rejects VNet prefixes larger than /24 with
`UnsupportedRange`, and otherwise yields exactly the sub-ranges of the /24
grid blocks — second octet from the start base's up to the pool bound, third
octet from the caller's start (first second octet only) or 0 to 255, each
block contributing itself at /24 or its sub-ranges at 25..32 — in strictly
increasing address order. -/
theorem octet_rollover_candidates (sb : IPv4Network) (vpl : Nat) (st3 : Int)
    (pool : IPv4Network) (lo stp : Nat) :
    (vpl < 24 → iter_third_then_second_octet_vnets sb vpl st3 =
      .error .octetVnetPrefixTooLarge) ∧
    (24 ≤ vpl → vpl ≤ 32 →
      pool_for_octet_search sb = .ok (pool, lo, stp) →
      0 ≤ st3 → st3 ≤ 255 →
      lo ≤ sb.network_address / 2 ^ 16 % 256 →
      sb.network_address / 2 ^ 16 % 256 < stp →
      ∃ L, iter_third_then_second_octet_vnets sb vpl st3 = .ok L ∧
        (∀ x, x ∈ L ↔ ∃ s t j,
          sb.network_address / 2 ^ 16 % 256 ≤ s ∧ s < stp ∧
          (s = sb.network_address / 2 ^ 16 % 256 → st3.toNat ≤ t) ∧
          t ≤ 255 ∧ j < 2 ^ (vpl - 24) ∧
          x = ⟨sb.network_address / 2 ^ 24 * 2 ^ 24 + s * 2 ^ 16 + t * 2 ^ 8 +
                j * 2 ^ (32 - vpl), vpl⟩) ∧
        List.Pairwise (fun x y => x.network_address < y.network_address) L) := by
  constructor
  · intro h
    rw [iter_third_then_second_octet_vnets, if_pos h]
  · intro h24 h32 hpool h3a h3b hlo hhi
    exact ⟨_, iter_eq_ok h24 hpool h3a h3b hlo hhi,
      fun x => mem_octet_candidates h24,
      octet_candidates_sorted _ _ _ _ _ h24 h32⟩

/-- Witness for C3: with start base 172.16.0.0/16 and starting third octet
1, the block 172.16.1.0/24 is among the generated candidates. -/
theorem octet_rollover_candidates_witness :
    ∃ L, iter_third_then_second_octet_vnets ⟨2886729728, 16⟩ 24 1 = .ok L ∧
      (⟨2886729984, 24⟩ : IPv4Network) ∈ L := by
  obtain ⟨L, hL, hmem, -⟩ :=
    (octet_rollover_candidates ⟨2886729728, 16⟩ 24 1 ⟨2886729728, 12⟩ 16 32).2
      (by norm_num) (by norm_num) (by decide) (by norm_num) (by norm_num)
      (by decide) (by decide)
  exact ⟨L, hL, (hmem _).mpr ⟨16, 1, 0, by decide, by decide, by decide,
    by decide, by decide, by decide⟩⟩

lemma rollover_go_error_inv {used : List IPv4Network} {sb : IPv4Network}
    {w p : Nat} {pool : IPv4Network} {lo stp : Nat}
    (hpool : pool_for_octet_search sb = .ok (pool, lo, stp)) :
    ∀ {l : List IPv4Network} {tried : Nat} {lastErr : Option IPErr} {e : IPErr},
      rollover_go used sb w p l tried lastErr = .error e →
      (used.any (fun u => pool.subnet_of u) = true → e = .poolExhausted) ∧
      (used.any (fun u => pool.subnet_of u) = false →
        (∃ le, e = .rolloverNoCapacityLast (tried + l.length) le) ∨
        e = .rolloverNoCapacity (tried + l.length)) := by
  intro l
  induction l with
  | nil =>
    intro tried lastErr e h
    simp only [rollover_go, hpool] at h
    by_cases hany : used.any (fun u => pool.subnet_of u) = true
    · rw [if_pos hany] at h
      injection h with h
      exact ⟨fun _ => h.symm, fun hfalse => by rw [hfalse] at hany; simp at hany⟩
    · rw [if_neg hany] at h
      refine ⟨fun htrue => absurd htrue hany, fun _ => ?_⟩
      cases lastErr with
      | some le =>
        injection h with h
        exact .inl ⟨le, by simp [← h]⟩
      | none =>
        injection h with h
        exact .inr (by simp [← h])
  | cons c rest ih =>
    intro tried lastErr e h
    simp only [rollover_go] at h
    have harith : tried + 1 + rest.length = tried + (c :: rest).length := by
      simp
      omega
    by_cases hov : overlaps_any c used = true
    · rw [if_pos hov] at h
      have := ih h
      rw [harith] at this
      exact this
    · rw [if_neg hov] at h
      cases hal : allocate_two_subnets c w p with
      | ok pr =>
        obtain ⟨webapp, pe⟩ := pr
        rw [hal] at h
        simp at h
      | error e' =>
        rw [hal] at h
        have := ih h
        rw [harith] at this
        exact this

/-- C4: when the octet-rollover allocator exhausts every generated candidate,
it reports `PoolExhausted` exactly when some used range covers the whole
recognized pool, and otherwise the capacity error carrying the number of
candidates attempted (the full candidate count) and, when one exists, the
last packing error. -/
theorem rollover_exhaustion_diagnosis (used : List IPv4Network)
    (sb : IPv4Network) (vpl w p : Nat) (st3 : Int)
    (pool : IPv4Network) (lo stp : Nat) (L : List IPv4Network) (e : IPErr)
    (hpool : pool_for_octet_search sb = .ok (pool, lo, stp))
    (hiter : iter_third_then_second_octet_vnets sb vpl st3 = .ok L)
    (herr : build_plan_with_rollover used sb vpl w p st3 = .error e) :
    (used.any (fun u => pool.subnet_of u) = true → e = .poolExhausted) ∧
    (used.any (fun u => pool.subnet_of u) = false →
      (∃ le, e = .rolloverNoCapacityLast L.length le) ∨
      e = .rolloverNoCapacity L.length) := by
  rw [build_plan_with_rollover, hiter] at herr
  have h := rollover_go_error_inv hpool herr
  simpa using h

lemma rollover_go_all_overlap {used : List IPv4Network} {sb : IPv4Network}
    {w p : Nat} {pool : IPv4Network} {lo stp : Nat}
    (hpool : pool_for_octet_search sb = .ok (pool, lo, stp))
    (hpoolused : used.any (fun u => pool.subnet_of u) = true) :
    ∀ {l : List IPv4Network} {tried : Nat} {lastErr : Option IPErr},
      (∀ c ∈ l, overlaps_any c used = true) →
      rollover_go used sb w p l tried lastErr = .error .poolExhausted := by
  intro l
  induction l with
  | nil =>
    intro tried lastErr h
    simp only [rollover_go, hpool]
    rw [if_pos hpoolused]
  | cons c rest ih =>
    intro tried lastErr h
    simp only [rollover_go]
    rw [if_pos (h c (List.mem_cons_self _ _))]
    exact ih (fun c' hc' => h c' (List.mem_cons_of_mem _ hc'))

/-- Witness for C4 (spec Scenario 3): a used range equal to the entire
172.16.0.0/12 pool makes the rollover allocator fail with `PoolExhausted`,
not the generic capacity error. -/
theorem rollover_exhaustion_diagnosis_witness :
    ∃ e, build_plan_with_rollover [⟨2886729728, 12⟩] ⟨2886729728, 16⟩
        24 27 27 1 = .error e ∧ e = .poolExhausted := by
  have hpool : pool_for_octet_search ⟨2886729728, 16⟩ =
      .ok (⟨2886729728, 12⟩, 16, 32) := by decide
  have hiter : iter_third_then_second_octet_vnets ⟨2886729728, 16⟩ 24 1 =
      .ok (octet_candidates (2886729728 / 2 ^ 24) (2886729728 / 2 ^ 16 % 256)
        32 (Int.toNat 1) 24) :=
    iter_eq_ok (by norm_num) hpool (by norm_num) (by norm_num) (by decide)
      (by decide)
  have hall : ∀ c ∈ octet_candidates (2886729728 / 2 ^ 24)
      (2886729728 / 2 ^ 16 % 256) 32 (Int.toNat 1) 24,
      overlaps_any c [⟨2886729728, 12⟩] = true := by
    intro c hc
    obtain ⟨s, t, j, hs1, hs2, -, ht, hj, rfl⟩ :=
      (mem_octet_candidates (by norm_num)).mp hc
    simp only [overlaps_any, List.any_cons, List.any_nil, Bool.or_false]
    rw [overlaps_eq_true_iff]
    simp only [IPv4Network.broadcast_address, IPv4Network.size]
    omega
  have herr : build_plan_with_rollover [⟨2886729728, 12⟩] ⟨2886729728, 16⟩
      24 27 27 1 = .error .poolExhausted := by
    rw [build_plan_with_rollover, hiter]
    exact rollover_go_all_overlap hpool (by decide) hall
  exact ⟨.poolExhausted, herr,
    (rollover_exhaustion_diagnosis [⟨2886729728, 12⟩] ⟨2886729728, 16⟩
      24 27 27 1 ⟨2886729728, 12⟩ 16 32 _ .poolExhausted
      hpool hiter herr).1 (by decide)⟩
